import Mathlib

/-
Verification development for the school FAQ chatbot core (`app.py`).

The embedding follows the source:
  * `SchoolChatbot.similarity` calls Python's
    `difflib.SequenceMatcher(None, a.lower(), b.lower()).ratio()`;
    the matcher (including the `autojunk` heuristic that fires for second
    sequences of length at least 200) is embedded below over `List Char`.
    Python floats are modelled as exact rationals (`ℚ`); the decimal
    literals `0.6` and `0.8` of the source become the exact rationals
    `3/5` and `4/5`.
  * Python dictionaries loaded from JSON may lack keys, so an FAQ entry
    is a record of `Option`-valued fields, and operations that index a
    dictionary (`faq["question"]`, `best_match["answer"]`) live in
    `Except PyErr`; a `.error` value models an uncaught Python exception
    propagating to the caller.
  * `Char.toLower` (ASCII case folding) stands in for Python `str.lower`,
    and `pyStrip` for `str.strip`.
-/

/-- Python `str.lower()` (characterwise ASCII case folding). -/
def pyLower (s : String) : String := ⟨s.data.map Char.toLower⟩

/-- Python `str.strip()`: drop leading and trailing whitespace. -/
def pyStrip (s : String) : String :=
  ⟨((s.data.dropWhile Char.isWhitespace).reverse.dropWhile Char.isWhitespace).reverse⟩

/-- `pyStartsWith sub l` is Python `l.startswith(sub)` on character lists. -/
def pyStartsWith : List Char → List Char → Bool
  | [], _ => true
  | _ :: _, [] => false
  | a :: as, b :: bs => a == b && pyStartsWith as bs

/-- `pyInList sub l` is Python's substring test `sub in l` on character lists. -/
def pyInList (sub : List Char) : List Char → Bool
  | [] => sub.isEmpty
  | c :: t => pyStartsWith sub (c :: t) || pyInList sub t

/-- Python's substring test `sub in s` for strings. -/
def pyIn (sub s : String) : Bool := pyInList sub.data s.data

/- ----------------------------------------------------------------
   difflib.SequenceMatcher(None, a, b), specialised to isjunk = None
   (so the junk set is empty) and autojunk = True (the default).
   ---------------------------------------------------------------- -/

/-- difflib's autojunk test: with `n = len(b) ≥ 200`, an element of `b`
occurring more than `n // 100 + 1` times is "popular" and is deleted from
the index `b2j` (it cannot seed a match, though the extension loops of
`find_longest_match` may still include it by plain equality). -/
def bPopular (b : List Char) (c : Char) : Bool :=
  decide (200 ≤ b.length) && decide (b.length / 100 + 1 < b.count c)

/-- The index `b2j[c]`: the ascending list of positions of `c` in `b`,
empty for popular elements. -/
def b2j (b : List Char) (c : Char) : List Nat :=
  if bPopular b c then []
  else (List.range b.length).filter (fun j => b.getD j ' ' == c)

/-- One inner step of `find_longest_match`'s dynamic program, processing
candidate position `j` of `b` at outer position `i` of `a`:
`k = newj2len[j] = j2len.get(j-1, 0) + 1`, and the best block becomes
`(i-k+1, j-k+1, k)` when `k` strictly exceeds the best size so far
(Python's `j2len.get(-1, 0)` is 0, hence the guard on `j = 0`). -/
def flmInner (j2len : Nat → Nat) (i : Nat)
    (acc : (Nat → Nat) × (Nat × Nat × Nat)) (j : Nat) : (Nat → Nat) × (Nat × Nat × Nat) :=
  let k := (if j = 0 then 0 else j2len (j - 1)) + 1
  let newj2len := fun x => if x = j then k else acc.1 x
  match acc.2 with
  | (besti, bestj, bestsize) =>
    if bestsize < k then (newj2len, (i + 1 - k, j + 1 - k, k))
    else (newj2len, (besti, bestj, bestsize))

/-- One outer step of the dynamic program: iterate the positions
`j ∈ b2j[a[i]]` with `blo ≤ j < bhi` (Python's `continue`/`break`),
starting from a fresh `newj2len`. -/
def flmStep (a b : List Char) (blo bhi : Nat)
    (st : (Nat → Nat) × (Nat × Nat × Nat)) (i : Nat) : (Nat → Nat) × (Nat × Nat × Nat) :=
  let js := (b2j b (a.getD i ' ')).filter (fun j => decide (blo ≤ j) && decide (j < bhi))
  js.foldl (flmInner st.1 i) ((fun _ => 0), st.2)

/-- The first extension loop of `find_longest_match`: with an empty junk
set, extend the best block leftwards while the preceding elements are
equal.  The loop decrements `besti` each iteration, so running it with
fuel `besti` is exact. -/
def extLeft (a b : List Char) (alo blo : Nat) :
    Nat → Nat × Nat × Nat → Nat × Nat × Nat
  | 0, st => st
  | fuel + 1, (besti, bestj, bestsize) =>
    if decide (alo < besti) && decide (blo < bestj) &&
        (a.getD (besti - 1) ' ' == b.getD (bestj - 1) ' ') then
      extLeft a b alo blo fuel (besti - 1, bestj - 1, bestsize + 1)
    else (besti, bestj, bestsize)

/-- The second extension loop: extend rightwards while the following
elements are equal.  Each iteration increments `bestsize`, so fuel
`ahi - (besti + bestsize)` is exact. -/
def extRight (a b : List Char) (ahi bhi besti bestj : Nat) :
    Nat → Nat → Nat
  | 0, bestsize => bestsize
  | fuel + 1, bestsize =>
    if decide (besti + bestsize < ahi) && decide (bestj + bestsize < bhi) &&
        (a.getD (besti + bestsize) ' ' == b.getD (bestj + bestsize) ' ') then
      extRight a b ahi bhi besti bestj fuel (bestsize + 1)
    else bestsize

/-- `find_longest_match(alo, ahi, blo, bhi)` for `isjunk = None`: the
dynamic program over `b2j`, then the two equality-extension loops.  (The
final two loops of the Python source extend over junk elements; the junk
set is empty here, so they never iterate and are omitted.) -/
def findLongestMatch (a b : List Char) (alo ahi blo bhi : Nat) : Nat × Nat × Nat :=
  let dp := (List.range' alo (ahi - alo)).foldl (flmStep a b blo bhi) ((fun _ => 0), (alo, blo, 0))
  let st := extLeft a b alo blo dp.2.1 dp.2
  (st.1, st.2.1, extRight a b ahi bhi st.1 st.2.1 (ahi - (st.1 + st.2.2)) st.2.2)

/-- The total number of matched elements over `get_matching_blocks`'
divide-and-conquer recursion (only the sum of block sizes is needed for
`ratio`). The recursion depth is bounded by the span of the ranges, so
fuel `len(a) + len(b) + 1` (see `totalMatches`) never runs out. -/
def matchesFuel (a b : List Char) : Nat → Nat → Nat → Nat → Nat → Nat
  | 0, _, _, _, _ => 0
  | fuel + 1, alo, ahi, blo, bhi =>
    match findLongestMatch a b alo ahi blo bhi with
    | (i, j, k) =>
      if k = 0 then 0
      else matchesFuel a b fuel alo i blo j + k + matchesFuel a b fuel (i + k) ahi (j + k) bhi

/-- Total matched elements of the two sequences, `M` in difflib's
`ratio = 2.0 * M / T`. -/
def totalMatches (a b : List Char) : Nat :=
  matchesFuel a b (a.length + b.length + 1) 0 a.length 0 b.length

/-- difflib's `_calculate_ratio(matches, length)`:
`2.0 * matches / length`, and `1.0` when both sequences are empty. -/
def ratioOf (a b : List Char) : ℚ :=
  if a.length + b.length = 0 then 1
  else 2 * (totalMatches a b : ℚ) / ((a.length + b.length : Nat) : ℚ)

/-- `SchoolChatbot.similarity`:
`SequenceMatcher(None, a.lower(), b.lower()).ratio()`. -/
def similarity (a b : String) : ℚ := ratioOf (pyLower a).data (pyLower b).data

/- ----------------------------------------------------------------
   Knowledge base and search
   ---------------------------------------------------------------- -/

/-- An uncaught Python exception propagating out of the core. -/
inductive PyErr where
  | keyError (key : String)
  | uncaught (tyName : String)
deriving DecidableEq

/-- One FAQ entry, a JSON object whose keys may be absent. -/
structure FaqEntry where
  question : Option String
  answer : Option String
  keywords : Option (List String)
deriving DecidableEq

/-- The first keyword pass of `search_knowledge_base`: for each keyword,
`if keyword_similarity > similarity_score: similarity_score = keyword_similarity`. -/
def keywordSimPass (ql : String) (kws : List String) (sc : ℚ) : ℚ :=
  kws.foldl (fun s kw => if s < similarity ql (pyLower kw) then similarity ql (pyLower kw) else s) sc

/-- The second keyword pass: for each keyword with
`keyword.lower() in question_lower`, `similarity_score = max(similarity_score, 0.8)`. -/
def keywordSubPass (ql : String) (kws : List String) (sc : ℚ) : ℚ :=
  kws.foldl (fun s kw => if pyIn (pyLower kw) ql then max s (0.8 : ℚ) else s) sc

/-- The score `search_knowledge_base` computes for one entry against the
lower-cased question `ql`: similarity with `faq["question"]` (a `KeyError`
when the key is missing), raised by the two keyword passes when the entry
has a `"keywords"` key. -/
def entryScoreE (ql : String) (faq : FaqEntry) : Except PyErr ℚ :=
  match faq.question with
  | none => .error (.keyError "question")
  | some fq =>
    let s0 := similarity ql fq
    let s1 := match faq.keywords with
      | some kws => keywordSimPass ql kws s0
      | none => s0
    let s2 := match faq.keywords with
      | some kws => keywordSubPass ql kws s1
      | none => s1
    .ok s2

/-- The entry loop of `search_knowledge_base`: an entry becomes the best
match when `similarity_score > best_similarity and similarity_score >= threshold`. -/
def searchLoop (ql : String) (threshold : ℚ) :
    List FaqEntry → Option FaqEntry → ℚ → Except PyErr (Option FaqEntry)
  | [], best, _ => .ok best
  | faq :: rest, best, bestSim =>
    match entryScoreE ql faq with
    | .error e => .error e
    | .ok sc =>
      if bestSim < sc ∧ threshold ≤ sc then searchLoop ql threshold rest (some faq) sc
      else searchLoop ql threshold rest best bestSim

/-- `SchoolChatbot.search_knowledge_base(question, threshold=0.6)`:
run the loop from `best_match = None`, `best_similarity = 0`, then
`return best_match["answer"] if best_match else None` (a `KeyError` when
the winning entry lacks an `"answer"` key). -/
def searchKnowledgeBase (faqs : List FaqEntry) (question : String) (threshold : ℚ) :
    Except PyErr (Option String) :=
  match searchLoop (pyLower question) threshold faqs none 0 with
  | .error e => .error e
  | .ok none => .ok none
  | .ok (some best) =>
    match best.answer with
    | some a => .ok (some a)
    | none => .error (.keyError "answer")

/-- `SchoolChatbot.get_response`: try the knowledge base at the default
threshold 0.6; `if kb_answer:` is Python truthiness, so `None` *and the
empty string* fall through to `get_ai_response` (modelled by the abstract
responder `ai`). -/
def getResponse (faqs : List FaqEntry) (ai : String → Except PyErr String)
    (question : String) : Except PyErr String :=
  match searchKnowledgeBase faqs question (0.6 : ℚ) with
  | .error e => .error e
  | .ok (some a) => if a = "" then ai question else .ok a
  | .ok none => ai question

/- ----------------------------------------------------------------
   AI responder
   ---------------------------------------------------------------- -/

/-- Outcome of the one external call of `get_ai_response` (the
`client.chat.completions.create(...)` request together with the
extraction `response.choices[0].message.content`): either the text it
produces, or an `Exception` with its message and type name. -/
inductive AiCallOutcome where
  | success (text : String)
  | raised (msg : String) (tyName : String)

/-- Fallback returned when no API key is configured. -/
def noApiKeyFallback : String :=
  "I'm sorry, but I'm currently unable to access my AI capabilities. Please contact the school administration for assistance."

/-- Fallback for error messages mentioning "quota". -/
def quotaFallback : String :=
  "I'm currently at my usage limit. Please try again later or contact the school office for immediate assistance."

/-- Fallback for error messages mentioning "api_key" or "authentication". -/
def authFallback : String :=
  "I'm having authentication issues. Please contact the school administration for assistance."

/-- Fallback for error messages mentioning "network" or "connection". -/
def networkFallback : String :=
  "I'm having network connectivity issues. Please check your internet connection and try again."

/-- Fallback for error messages mentioning "model". -/
def modelFallback (tyName : String) : String :=
  "The GPT-4o-mini model is not available. Please contact support. (Error: " ++ tyName ++ ")"

/-- The catch-all fallback, embedding the error's type name. -/
def genericFallback (tyName : String) : String :=
  "I'm sorry, I'm having trouble processing your request right now (Error: " ++ tyName
    ++ "). Please try again later or contact the school office for immediate assistance."

/-- The `except Exception` handler of `get_ai_response`: classify
`str(e).lower()` by substring, in source order. -/
def classifyAiError (msg tyName : String) : String :=
  let m := pyLower msg
  if pyIn "quota" m then quotaFallback
  else if pyIn "api_key" m || pyIn "authentication" m then authFallback
  else if pyIn "network" m || pyIn "connection" m then networkFallback
  else if pyIn "model" m then modelFallback tyName
  else genericFallback tyName

/-- `SchoolChatbot.get_ai_response`: inside `try`, fail closed to the
apology when `not api_key` (absent *or empty* credential), otherwise
return the stripped completion text; every `Exception` the call raises
is caught and classified.  The result is always `.ok`: no exception
escapes. -/
def getAiResponse (apiKey : Option String) (call : AiCallOutcome) : Except PyErr String :=
  Except.ok <|
    match apiKey with
    | none => noApiKeyFallback
    | some k =>
      if k = "" then noApiKeyFallback
      else
        match call with
        | .success text => pyStrip text
        | .raised msg tyName => classifyAiError msg tyName

/- ----------------------------------------------------------------
   Knowledge base loading
   ---------------------------------------------------------------- -/

/-- A JSON value, as `json.load` returns it. -/
inductive Json where
  | null
  | bool (b : Bool)
  | num (q : ℚ)
  | str (s : String)
  | arr (elems : List Json)
  | obj (fields : List (String × Json))

/-- Outcome of `open(path, 'r', encoding='utf-8')` followed by
`json.load(file)`.  Besides the two exception types the source handles,
this pair of calls can raise others — e.g. `UnicodeDecodeError` when the
file is not valid UTF-8, or `PermissionError`/`IsADirectoryError` from
`open` — modelled by `otherException`. -/
inductive LoadOutcome where
  | fileNotFound
  | jsonDecodeError
  | otherException (tyName : String)
  | parsed (value : Json)

/-- The `{"faqs": []}` fallback value. -/
def emptyKnowledgeBase : Json := .obj [("faqs", .arr [])]

/-- `SchoolChatbot.load_knowledge_base`: `except FileNotFoundError` and
`except json.JSONDecodeError` return the empty fallback; any other
exception is not caught and propagates. -/
def loadKnowledgeBase : LoadOutcome → Except PyErr Json
  | .fileNotFound => .ok emptyKnowledgeBase
  | .jsonDecodeError => .ok emptyKnowledgeBase
  | .otherException tyName => .error (.uncaught tyName)
  | .parsed v => .ok v

/- ----------------------------------------------------------------
   Claims
   ---------------------------------------------------------------- -/

/-- C2: for every credential state and every outcome of the external AI
call (success or an exception of any kind raised by the client),
`get_ai_response` returns a string: the `try`/`except Exception` block
converts every raised error into user-facing text, and no exception
(`.error`) reaches the caller. -/
theorem getAiResponse_never_raises (apiKey : Option String) (call : AiCallOutcome) :
    ∃ s : String, getAiResponse apiKey call = .ok s :=
  ⟨_, rfl⟩

/-- C3 counterexample: the source only catches `FileNotFoundError` and
`json.JSONDecodeError`; a source file that is unparseable because it is
not valid UTF-8 raises `UnicodeDecodeError`, which propagates to the
caller instead of producing the empty fallback. -/
theorem loadKnowledgeBase_raise_counterexample :
    loadKnowledgeBase (.otherException "UnicodeDecodeError")
      = .error (.uncaught "UnicodeDecodeError") := rfl

/-- C3 (amended): `load_knowledge_base` returns `{"faqs": []}` when the
file is missing (`FileNotFoundError`) and when its text is not valid JSON
(`json.JSONDecodeError`), raising nothing in those two cases; any other
exception raised while opening or decoding the file propagates to the
caller. -/
theorem loadKnowledgeBase_fallback :
    loadKnowledgeBase .fileNotFound = .ok emptyKnowledgeBase ∧
    loadKnowledgeBase .jsonDecodeError = .ok emptyKnowledgeBase ∧
    ∀ tyName : String,
      loadKnowledgeBase (.otherException tyName) = .error (.uncaught tyName) :=
  ⟨rfl, rfl, fun _ => rfl⟩

/-- C4: the error classification of `get_ai_response` is checked in the
fixed source order.  A message containing "quota" yields the quota
fallback regardless of any other keywords; a message containing
"authentication" but not "quota" yields the authentication fallback
(the `or`-ed "api_key" test cannot prevent it); a message matching none
of the categories yields the generic fallback with the error's type name
embedded. -/
theorem classifyAiError_order (msg tyName : String) :
    (pyIn "quota" (pyLower msg) = true →
      classifyAiError msg tyName = quotaFallback) ∧
    (pyIn "quota" (pyLower msg) = false →
      pyIn "authentication" (pyLower msg) = true →
      classifyAiError msg tyName = authFallback) ∧
    (pyIn "quota" (pyLower msg) = false →
      pyIn "api_key" (pyLower msg) = false →
      pyIn "authentication" (pyLower msg) = false →
      pyIn "network" (pyLower msg) = false →
      pyIn "connection" (pyLower msg) = false →
      pyIn "model" (pyLower msg) = false →
      classifyAiError msg tyName = genericFallback tyName) := by
  refine ⟨?_, ?_, ?_⟩ <;> intros <;> simp [classifyAiError, *]

/-- Witness for C4 at concrete errors: a quota-plus-network message, an
authentication-only message, and a message in no category. -/
theorem classifyAiError_order_witness :
    classifyAiError "Quota exceeded; network unreachable" "RateLimitError" = quotaFallback ∧
    classifyAiError "authentication failed" "AuthenticationError" = authFallback ∧
    classifyAiError "boom" "RuntimeError" = genericFallback "RuntimeError" :=
  ⟨(classifyAiError_order _ _).1 (by decide),
   (classifyAiError_order _ _).2.1 (by decide) (by decide),
   (classifyAiError_order _ _).2.2 (by decide) (by decide) (by decide) (by decide)
     (by decide) (by decide)⟩

/-- C9: with no API credential configured, `get_ai_response` returns the
fixed apology string whatever the hypothetical call outcome would be, and
end to end — empty knowledge base, question "hello" — `get_response`
returns that same apology string. -/
theorem noCredential_apology :
    (∀ call : AiCallOutcome, getAiResponse none call = .ok noApiKeyFallback) ∧
    (∀ call : String → AiCallOutcome,
      getResponse [] (fun q => getAiResponse none (call q)) "hello"
        = .ok noApiKeyFallback) :=
  ⟨fun _ => rfl, fun _ => rfl⟩

/- Helper lemmas: evaluating `similarity` and one step of the search loop
   on concrete inputs (the combinatorial part, `totalMatches`, is pure
   `Nat` and reduces by `decide`; only the final division needs `ℚ`). -/

lemma similarity_eval (a b : String) (m la lb : Nat)
    (hm : totalMatches (pyLower a).data (pyLower b).data = m)
    (ha : (pyLower a).data.length = la) (hb : (pyLower b).data.length = lb) :
    similarity a b = if la + lb = 0 then 1 else 2 * (m : ℚ) / ((la + lb : Nat) : ℚ) := by
  simp only [similarity, ratioOf, hm, ha, hb]

lemma sim_hi : similarity "hi" "hi" = 1 := by
  rw [similarity_eval "hi" "hi" 2 2 2 (by decide) (by decide) (by decide)]
  norm_num

lemma sim_ab : similarity "ab" "ab" = 1 := by
  rw [similarity_eval "ab" "ab" 2 2 2 (by decide) (by decide) (by decide)]
  norm_num

lemma sim_hello : similarity "hello" "hello" = 1 := by
  rw [similarity_eval "hello" "hello" 5 5 5 (by decide) (by decide) (by decide)]
  norm_num

lemma entryScoreE_ok_iff (ql : String) (faq : FaqEntry) :
    (∃ sc, entryScoreE ql faq = .ok sc) ↔ faq.question.isSome := by
  cases hq : faq.question <;> simp [entryScoreE, hq]

lemma searchLoop_cons_ok (ql : String) (th : ℚ) (faq : FaqEntry) (t : List FaqEntry)
    (best : Option FaqEntry) (bs sc : ℚ) (h : entryScoreE ql faq = .ok sc) :
    searchLoop ql th (faq :: t) best bs
      = if bs < sc ∧ th ≤ sc then searchLoop ql th t (some faq) sc
        else searchLoop ql th t best bs := by
  simp [searchLoop, h]

lemma searchLoop_cons_err (ql : String) (th : ℚ) (faq : FaqEntry) (t : List FaqEntry)
    (best : Option FaqEntry) (bs : ℚ) (e : PyErr) (h : entryScoreE ql faq = .error e) :
    searchLoop ql th (faq :: t) best bs = .error e := by
  simp [searchLoop, h]

lemma searchLoop_hi :
    searchLoop (pyLower "hi") (0.6 : ℚ) [⟨some "hi", some "", none⟩] none 0
      = .ok (some ⟨some "hi", some "", none⟩) := by
  have hp : pyLower "hi" = "hi" := by decide
  simp only [searchLoop, entryScoreE, hp, sim_hi]
  norm_num

lemma searchLoop_ab :
    searchLoop (pyLower "ab") (0.6 : ℚ) [⟨some "ab", none, none⟩] none 0
      = .ok (some ⟨some "ab", none, none⟩) := by
  have hp : pyLower "ab" = "ab" := by decide
  simp only [searchLoop, entryScoreE, hp, sim_ab]
  norm_num

lemma searchKB_hello :
    searchKnowledgeBase [⟨some "hello", some "Classes start at 8am.", none⟩]
      "hello" (0.6 : ℚ) = .ok (some "Classes start at 8am.") := by
  have hp : pyLower "hello" = "hello" := by decide
  have hloop : searchLoop (pyLower "hello") (0.6 : ℚ)
      [⟨some "hello", some "Classes start at 8am.", none⟩] none 0
      = .ok (some ⟨some "hello", some "Classes start at 8am.", none⟩) := by
    simp only [searchLoop, entryScoreE, hp, sim_hello]
    norm_num
  simp [searchKnowledgeBase, hloop]

/- Monotonicity of the second keyword pass. -/

lemma keywordSubPass_cons (ql k : String) (t : List String) (sc : ℚ) :
    keywordSubPass ql (k :: t) sc
      = keywordSubPass ql t (if pyIn (pyLower k) ql then max sc (0.8 : ℚ) else sc) := rfl

lemma le_keywordSubPass (ql : String) (kws : List String) (sc : ℚ) :
    sc ≤ keywordSubPass ql kws sc := by
  induction kws generalizing sc with
  | nil => exact le_refl _
  | cons k t ih =>
    rw [keywordSubPass_cons]
    refine le_trans ?_ (ih _)
    split
    · exact le_max_left _ _
    · exact le_refl _

lemma keywordSubPass_ge (ql : String) (kws : List String) (sc : ℚ) (kw : String)
    (hmem : kw ∈ kws) (hsub : pyIn (pyLower kw) ql = true) :
    (0.8 : ℚ) ≤ keywordSubPass ql kws sc := by
  induction kws generalizing sc with
  | nil => cases hmem
  | cons k t ih =>
    rw [keywordSubPass_cons]
    rcases List.mem_cons.mp hmem with rfl | hmem'
    · rw [hsub]
      simp only [if_true]
      exact le_trans (le_max_right _ _) (le_keywordSubPass _ _ _)
    · exact ih _ hmem'

/-- C5: when some keyword of an entry, lower-cased, occurs as a literal
substring of the lower-cased question, the entry's score is forced to at
least 0.8 by the `max(similarity_score, 0.8)` pass; consequently a
knowledge base holding exactly that entry matches at the default
threshold 0.6 and `search_knowledge_base` returns its answer. -/
theorem keywordSubstring_matches (q : String) (e : FaqEntry) (fq : String)
    (kws : List String) (kw : String)
    (hq : e.question = some fq) (hk : e.keywords = some kws) (hmem : kw ∈ kws)
    (hsub : pyIn (pyLower kw) (pyLower q) = true) :
    (∃ sc : ℚ, entryScoreE (pyLower q) e = .ok sc ∧ (0.8 : ℚ) ≤ sc) ∧
    ∀ a : String, e.answer = some a →
      searchKnowledgeBase [e] q (0.6 : ℚ) = .ok (some a) := by
  have hscore : entryScoreE (pyLower q) e
      = .ok (keywordSubPass (pyLower q) kws
              (keywordSimPass (pyLower q) kws (similarity (pyLower q) fq))) := by
    simp [entryScoreE, hq, hk]
  have hge : (0.8 : ℚ) ≤ keywordSubPass (pyLower q) kws
      (keywordSimPass (pyLower q) kws (similarity (pyLower q) fq)) :=
    keywordSubPass_ge _ _ _ kw hmem hsub
  refine ⟨⟨_, hscore, hge⟩, ?_⟩
  intro a ha
  have h0 : (0 : ℚ) < keywordSubPass (pyLower q) kws
      (keywordSimPass (pyLower q) kws (similarity (pyLower q) fq)) :=
    lt_of_lt_of_le (by norm_num) hge
  have h06 : (0.6 : ℚ) ≤ keywordSubPass (pyLower q) kws
      (keywordSimPass (pyLower q) kws (similarity (pyLower q) fq)) :=
    le_trans (by norm_num) hge
  rw [searchKnowledgeBase, searchLoop_cons_ok _ _ _ _ _ _ _ hscore,
    if_pos ⟨h0, h06⟩]
  simp [searchLoop, ha]

/-- Witness for C5: the spec's own example — keywords
`["hours", "schedule"]`, question "I need the schedule please". -/
theorem keywordSubstring_matches_witness :
    pyIn (pyLower "schedule") (pyLower "I need the schedule please") = true ∧
    searchKnowledgeBase
      [⟨some "What are school hours?", some "8am-3pm", some ["hours", "schedule"]⟩]
      "I need the schedule please" (0.6 : ℚ) = .ok (some "8am-3pm") :=
  ⟨by decide,
   (keywordSubstring_matches "I need the schedule please" _ _ _ "schedule"
      rfl rfl (by decide) (by decide)).2 _ rfl⟩

/- The search loop raises as soon as any entry lacks a "question" key. -/

lemma searchLoop_error_of_missing (ql : String) (th : ℚ) (l : List FaqEntry) :
    ∀ (best : Option FaqEntry) (bs : ℚ),
      (∃ e ∈ l, e.question = none) →
      ∃ err, searchLoop ql th l best bs = .error err := by
  induction l with
  | nil =>
    rintro best bs ⟨e, he, -⟩
    cases he
  | cons f t ih =>
    rintro best bs ⟨e, he, hq⟩
    rcases List.mem_cons.mp he with rfl | hmem
    · exact ⟨.keyError "question", searchLoop_cons_err _ _ _ _ _ _ _ (by simp [entryScoreE, hq])⟩
    · cases hf : f.question with
      | none =>
        exact ⟨.keyError "question", searchLoop_cons_err _ _ _ _ _ _ _ (by simp [entryScoreE, hf])⟩
      | some fq =>
        obtain ⟨sc, hsc⟩ := (entryScoreE_ok_iff ql f).mpr (by simp [hf])
        rw [searchLoop_cons_ok _ _ _ _ _ _ _ hsc]
        by_cases hcond : bs < sc ∧ th ≤ sc
        · rw [if_pos hcond]; exact ih _ _ ⟨e, hmem, hq⟩
        · rw [if_neg hcond]; exact ih _ _ ⟨e, hmem, hq⟩

/-- C10: `search_knowledge_base` is total only on well-formed knowledge
bases.  It reads `faq["question"]` unconditionally for every entry, so a
knowledge base containing any entry without a `"question"` key makes the
lookup raise a `KeyError`; and it reads `best_match["answer"]`
unconditionally, so a winning entry without an `"answer"` key also
raises.  (The empty-base fallback of `load_knowledge_base` guards whole
file failures only, not per-entry shape.) -/
theorem searchKnowledgeBase_missing_keys :
    (∀ (faqs : List FaqEntry) (q : String) (th : ℚ),
      (∃ e ∈ faqs, e.question = none) →
      ∃ err, searchKnowledgeBase faqs q th = .error err) ∧
    (∀ (faqs : List FaqEntry) (q : String) (th : ℚ) (e : FaqEntry),
      searchLoop (pyLower q) th faqs none 0 = .ok (some e) → e.answer = none →
      searchKnowledgeBase faqs q th = .error (.keyError "answer")) := by
  constructor
  · intro faqs q th hex
    obtain ⟨err, herr⟩ := searchLoop_error_of_missing (pyLower q) th faqs none 0 hex
    exact ⟨err, by simp [searchKnowledgeBase, herr]⟩
  · intro faqs q th e hloop hans
    simp [searchKnowledgeBase, hloop, hans]

/-- Witness for C10: an entry missing "question" raises, and a winning
entry missing "answer" raises. -/
theorem searchKnowledgeBase_missing_keys_witness :
    (∃ err, searchKnowledgeBase [⟨none, some "x", none⟩] "q" (0.6 : ℚ) = .error err) ∧
    searchKnowledgeBase [⟨some "ab", none, none⟩] "ab" (0.6 : ℚ)
      = .error (.keyError "answer") :=
  ⟨searchKnowledgeBase_missing_keys.1 _ _ _ ⟨⟨none, some "x", none⟩, by simp, rfl⟩,
   searchKnowledgeBase_missing_keys.2 _ _ _ _ searchLoop_ab rfl⟩

/-- C1 counterexample: `get_response` guards the local match with Python
truthiness (`if kb_answer:`), so a matched FAQ answer that is the empty
string is NOT returned — the AI responder is invoked instead and its
output is returned. -/
theorem getResponse_empty_answer_counterexample :
    searchKnowledgeBase [⟨some "hi", some "", none⟩] "hi" (0.6 : ℚ) = .ok (some "") ∧
    getResponse [⟨some "hi", some "", none⟩] (fun _ => .ok "AI RESPONSE") "hi"
      = .ok "AI RESPONSE" := by
  refine ⟨?_, ?_⟩
  · simp [searchKnowledgeBase, searchLoop_hi]
  · simp [getResponse, searchKnowledgeBase, searchLoop_hi]

/-- C1 (amended): if the FAQ resolver returns a *non-empty* match at the
default threshold 0.6, then `get_response` returns exactly that matched
answer, independently of the AI responder `ai` — i.e. the AI path is
never consulted on that call. -/
theorem getResponse_faq_shortcircuit (faqs : List FaqEntry) (q a : String)
    (ai : String → Except PyErr String)
    (h : searchKnowledgeBase faqs q (0.6 : ℚ) = .ok (some a)) (hne : a ≠ "") :
    getResponse faqs ai q = .ok a := by
  simp [getResponse, h, hne]

/-- Witness for C1 at a concrete matching knowledge base. -/
theorem getResponse_faq_shortcircuit_witness :
    getResponse [⟨some "hello", some "Classes start at 8am.", none⟩]
      (fun _ => .ok "AI RESPONSE") "hello" = .ok "Classes start at 8am." :=
  getResponse_faq_shortcircuit _ _ _ _ searchKB_hello (by decide)

/- The search loop keeps the current best when no later score strictly
   exceeds it, and selects the earliest entry attaining the (positive)
   maximum. -/

lemma searchLoop_stable (ql : String) (th : ℚ) (l : List FaqEntry) :
    ∀ (score : Nat → ℚ) (best : Option FaqEntry) (bs : ℚ),
      (∀ k (hk : k < l.length), entryScoreE ql (l.get ⟨k, hk⟩) = .ok (score k)) →
      (∀ k (hk : k < l.length), score k ≤ bs) →
      searchLoop ql th l best bs = .ok best := by
  induction l with
  | nil => intro score best bs _ _; rfl
  | cons f t ih =>
    intro score best bs hsc hle
    have h0 : entryScoreE ql f = .ok (score 0) := by simpa using hsc 0 (Nat.succ_pos _)
    rw [searchLoop_cons_ok _ _ _ _ _ _ _ h0, if_neg]
    · refine ih (fun k => score (k + 1)) best bs (fun k hk => ?_)
        (fun k hk => hle (k + 1) (Nat.succ_lt_succ hk))
      have := hsc (k + 1) (Nat.succ_lt_succ hk)
      simpa using this
    · rintro ⟨hlt, -⟩
      exact absurd (hle 0 (Nat.succ_pos _)) (not_le.mpr hlt)

lemma searchLoop_first_max (ql : String) (th : ℚ) (l : List FaqEntry) :
    ∀ (score : Nat → ℚ) (best : Option FaqEntry) (bs : ℚ) (i : Nat) (hi : i < l.length),
      (∀ k (hk : k < l.length), entryScoreE ql (l.get ⟨k, hk⟩) = .ok (score k)) →
      th ≤ score i → bs < score i →
      (∀ k, k < i → score k < score i) →
      (∀ k (hk : k < l.length), score k ≤ score i) →
      searchLoop ql th l best bs = .ok (some (l.get ⟨i, hi⟩)) := by
  induction l with
  | nil => intro score best bs i hi; exact absurd hi (Nat.not_lt_zero _)
  | cons f t ih =>
    intro score best bs i hi hsc hth hbs hfirst hmax
    have h0 : entryScoreE ql f = .ok (score 0) := by simpa using hsc 0 (Nat.succ_pos _)
    have hshift : ∀ k (hk : k < t.length),
        entryScoreE ql (t.get ⟨k, hk⟩) = .ok (score (k + 1)) := by
      intro k hk
      have := hsc (k + 1) (Nat.succ_lt_succ hk)
      simpa using this
    cases i with
    | zero =>
      rw [searchLoop_cons_ok _ _ _ _ _ _ _ h0, if_pos ⟨hbs, hth⟩]
      have : searchLoop ql th t (some f) (score 0) = .ok (some f) :=
        searchLoop_stable ql th t (fun k => score (k + 1)) (some f) (score 0) hshift
          (fun k hk => hmax (k + 1) (Nat.succ_lt_succ hk))
      simpa using this
    | succ i' =>
      have hi' : i' < t.length := Nat.lt_of_succ_lt_succ hi
      have hgoal : searchLoop ql th (f :: t) best bs
          = searchLoop ql th t (some f) (score 0) ∨
          searchLoop ql th (f :: t) best bs = searchLoop ql th t best bs := by
        rw [searchLoop_cons_ok _ _ _ _ _ _ _ h0]
        by_cases hc : bs < score 0 ∧ th ≤ score 0
        · rw [if_pos hc]; exact Or.inl rfl
        · rw [if_neg hc]; exact Or.inr rfl
      have hres : searchLoop ql th t (some f) (score 0) = .ok (some (t.get ⟨i', hi'⟩)) :=
        ih (fun k => score (k + 1)) (some f) (score 0) i' hi' hshift hth
          (hfirst 0 (Nat.succ_pos _))
          (fun k hk => hfirst (k + 1) (Nat.succ_lt_succ hk))
          (fun k hk => hmax (k + 1) (Nat.succ_lt_succ hk))
      have hres' : searchLoop ql th t best bs = .ok (some (t.get ⟨i', hi'⟩)) :=
        ih (fun k => score (k + 1)) best bs i' hi' hshift hth hbs
          (fun k hk => hfirst (k + 1) (Nat.succ_lt_succ hk))
          (fun k hk => hmax (k + 1) (Nat.succ_lt_succ hk))
      have : (f :: t).get ⟨i' + 1, hi⟩ = t.get ⟨i', hi'⟩ := by simp
      rw [this]
      rcases hgoal with h | h <;> rw [h]
      · exact hres
      · exact hres'

/-- C6 counterexample: the claim fails when the shared maximal score is
0, because the loop starts from `best_similarity = 0` and requires a
*strict* improvement: with threshold 0, two entries both scoring 0
("xy" shares no character with "ab") attain the maximal score 0 ≥ 0,
yet the search returns no match at all rather than the first entry's
answer. -/
theorem searchKnowledgeBase_tie_counterexample :
    entryScoreE (pyLower "xy") ⟨some "ab", some "A1", none⟩ = .ok 0 ∧
    entryScoreE (pyLower "xy") ⟨some "ab", some "A2", none⟩ = .ok 0 ∧
    searchKnowledgeBase [⟨some "ab", some "A1", none⟩, ⟨some "ab", some "A2", none⟩]
      "xy" (0 : ℚ) = .ok none := by
  have hp : pyLower "xy" = "xy" := by decide
  have hs : similarity "xy" "ab" = 0 := by
    rw [similarity_eval "xy" "ab" 0 2 2 (by decide) (by decide) (by decide)]
    norm_num
  refine ⟨?_, ?_, ?_⟩
  · simp [entryScoreE, hp, hs]
  · simp [entryScoreE, hp, hs]
  · simp [searchKnowledgeBase, searchLoop, entryScoreE, hp, hs]

/-- C6 (amended): if two or more entries attain the same maximal score,
that score meets the threshold *and is strictly positive* (so it can beat
the initial `best_similarity = 0`), then `search_knowledge_base` returns
the answer of the earliest maximal entry in knowledge-base order — an
entry replaces the current best only when its score strictly exceeds the
best score so far and also meets the threshold, so later equal scores
never override. -/
theorem searchKnowledgeBase_first_of_ties (faqs : List FaqEntry) (q : String) (th : ℚ)
    (score : Nat → ℚ)
    (hscore : ∀ k (hk : k < faqs.length),
      entryScoreE (pyLower q) (faqs.get ⟨k, hk⟩) = .ok (score k))
    (i j : Nat) (hi : i < faqs.length) (hj : j < faqs.length) (hij : i < j)
    (htie : score i = score j)
    (hmax : ∀ k (hk : k < faqs.length), score k ≤ score i)
    (hth : th ≤ score i) (hpos : 0 < score i)
    (hfirst : ∀ k, k < i → score k < score i)
    (a : String) (ha : (faqs.get ⟨i, hi⟩).answer = some a) :
    searchKnowledgeBase faqs q th = .ok (some a) := by
  have hloop := searchLoop_first_max (pyLower q) th faqs score none 0 i hi hscore hth hpos
    hfirst hmax
  simp only [searchKnowledgeBase, hloop]
  rw [ha]

/-- Witness for C6: two entries with identical question text (equal
scores 1); the first one's answer is returned. -/
theorem searchKnowledgeBase_first_of_ties_witness :
    searchKnowledgeBase
      [⟨some "ab", some "First answer", none⟩, ⟨some "ab", some "Second answer", none⟩]
      "ab" (0.6 : ℚ) = .ok (some "First answer") := by
  have hp : pyLower "ab" = "ab" := by decide
  have h1 : ∀ ans kw, entryScoreE (pyLower "ab") ⟨some "ab", ans, kw⟩
      = .ok (match kw with
             | some kws => keywordSubPass "ab" kws (keywordSimPass "ab" kws 1)
             | none => 1) := by
    intro ans kw
    cases kw <;> simp [entryScoreE, hp, sim_ab]
  refine searchKnowledgeBase_first_of_ties _ _ _ (fun _ => 1) ?_ 0 1 (by decide) (by decide)
    (by decide) rfl (fun k hk => le_refl _) (by norm_num) (by norm_num)
    (fun k hk => absurd hk (Nat.not_lt_zero _)) "First answer" rfl
  intro k hk
  match k, hk with
  | 0, _ => exact h1 (some "First answer") none
  | 1, _ => exact h1 (some "Second answer") none

/- ----------------------------------------------------------------
   Bounds on find_longest_match and the total match count
   ---------------------------------------------------------------- -/

lemma flmInner_eq (old : Nat → Nat) (i : Nat)
    (p : (Nat → Nat) × (Nat × Nat × Nat)) (j : Nat) :
    flmInner old i p j
      = (if p.2.2.2 < (if j = 0 then 0 else old (j - 1)) + 1 then
           ((fun x => if x = j then (if j = 0 then 0 else old (j - 1)) + 1 else p.1 x),
            (i + 1 - ((if j = 0 then 0 else old (j - 1)) + 1),
             j + 1 - ((if j = 0 then 0 else old (j - 1)) + 1),
             (if j = 0 then 0 else old (j - 1)) + 1))
         else
           ((fun x => if x = j then (if j = 0 then 0 else old (j - 1)) + 1 else p.1 x),
            p.2)) := by
  obtain ⟨pm, pbi, pbj, pbs⟩ := p
  rfl

lemma flmInner_step_bounds (old : Nat → Nat) (i alo blo bhi j : Nat)
    (p : (Nat → Nat) × (Nat × Nat × Nat))
    (holdj : ∀ x, old x ≠ 0 → blo + old x ≤ x + 1) (holdi : ∀ x, alo + old x ≤ i)
    (hjb : blo ≤ j) (hjhi : j < bhi)
    (h1 : ∀ x, p.1 x ≠ 0 → blo + p.1 x ≤ x + 1) (h2 : ∀ x, alo + p.1 x ≤ i + 1)
    (h3 : alo ≤ p.2.1) (h4 : blo ≤ p.2.2.1)
    (h5 : p.2.1 + p.2.2.2 ≤ i + 1) (h6 : p.2.2.1 + p.2.2.2 ≤ bhi) :
    (∀ x, (flmInner old i p j).1 x ≠ 0 → blo + (flmInner old i p j).1 x ≤ x + 1) ∧
    (∀ x, alo + (flmInner old i p j).1 x ≤ i + 1) ∧
    alo ≤ (flmInner old i p j).2.1 ∧ blo ≤ (flmInner old i p j).2.2.1 ∧
    (flmInner old i p j).2.1 + (flmInner old i p j).2.2.2 ≤ i + 1 ∧
    (flmInner old i p j).2.2.1 + (flmInner old i p j).2.2.2 ≤ bhi := by
  have hk1 : blo + ((if j = 0 then 0 else old (j - 1)) + 1) ≤ j + 1 := by
    by_cases hj : j = 0
    · rw [if_pos hj]; omega
    · rw [if_neg hj]
      by_cases ho : old (j - 1) = 0
      · rw [ho]; omega
      · have := holdj (j - 1) ho; omega
  have hk2 : alo + ((if j = 0 then 0 else old (j - 1)) + 1) ≤ i + 1 := by
    by_cases hj : j = 0
    · have := holdi 0; rw [if_pos hj]; omega
    · have := holdi (j - 1); rw [if_neg hj]; omega
  have hmap1 : ∀ x, (if x = j then (if j = 0 then 0 else old (j - 1)) + 1 else p.1 x) ≠ 0 →
      blo + (if x = j then (if j = 0 then 0 else old (j - 1)) + 1 else p.1 x) ≤ x + 1 := by
    intro x
    by_cases hx : x = j
    · rw [if_pos hx, hx]; intro _; exact hk1
    · rw [if_neg hx]; exact h1 x
  have hmap2 : ∀ x, alo +
      (if x = j then (if j = 0 then 0 else old (j - 1)) + 1 else p.1 x) ≤ i + 1 := by
    intro x
    by_cases hx : x = j
    · rw [if_pos hx]; exact hk2
    · rw [if_neg hx]; exact h2 x
  rw [flmInner_eq]
  by_cases hlt : p.2.2.2 < (if j = 0 then 0 else old (j - 1)) + 1
  · rw [if_pos hlt]
    refine ⟨hmap1, hmap2, ?_, ?_, ?_, ?_⟩ <;> dsimp only <;> omega
  · rw [if_neg hlt]
    exact ⟨hmap1, hmap2, h3, h4, h5, h6⟩

lemma flmInner_fold_bounds (old : Nat → Nat) (i alo blo bhi : Nat)
    (holdj : ∀ x, old x ≠ 0 → blo + old x ≤ x + 1) (holdi : ∀ x, alo + old x ≤ i) :
    ∀ (js : List Nat) (p : (Nat → Nat) × (Nat × Nat × Nat)),
      (∀ j ∈ js, blo ≤ j ∧ j < bhi) →
      (∀ x, p.1 x ≠ 0 → blo + p.1 x ≤ x + 1) → (∀ x, alo + p.1 x ≤ i + 1) →
      alo ≤ p.2.1 → blo ≤ p.2.2.1 → p.2.1 + p.2.2.2 ≤ i + 1 → p.2.2.1 + p.2.2.2 ≤ bhi →
      (∀ x, (js.foldl (flmInner old i) p).1 x ≠ 0 →
        blo + (js.foldl (flmInner old i) p).1 x ≤ x + 1) ∧
      (∀ x, alo + (js.foldl (flmInner old i) p).1 x ≤ i + 1) ∧
      alo ≤ (js.foldl (flmInner old i) p).2.1 ∧
      blo ≤ (js.foldl (flmInner old i) p).2.2.1 ∧
      (js.foldl (flmInner old i) p).2.1 + (js.foldl (flmInner old i) p).2.2.2 ≤ i + 1 ∧
      (js.foldl (flmInner old i) p).2.2.1 + (js.foldl (flmInner old i) p).2.2.2 ≤ bhi := by
  intro js
  induction js with
  | nil =>
    intro p _ h1 h2 h3 h4 h5 h6
    exact ⟨h1, h2, h3, h4, h5, h6⟩
  | cons j t ih =>
    intro p hmem h1 h2 h3 h4 h5 h6
    rw [List.foldl_cons]
    obtain ⟨hjb, hjhi⟩ := hmem j (List.mem_cons_self _ _)
    obtain ⟨g1, g2, g3, g4, g5, g6⟩ :=
      flmInner_step_bounds old i alo blo bhi j p holdj holdi hjb hjhi h1 h2 h3 h4 h5 h6
    exact ih (flmInner old i p j) (fun x hx => hmem x (List.mem_cons_of_mem _ hx))
      g1 g2 g3 g4 g5 g6
lemma flmStep_eq (a b : List Char) (blo bhi : Nat)
    (p : (Nat → Nat) × (Nat × Nat × Nat)) (i : Nat) :
    flmStep a b blo bhi p i
      = ((b2j b (a.getD i ' ')).filter
          (fun j => decide (blo ≤ j) && decide (j < bhi))).foldl
          (flmInner p.1 i) ((fun _ => 0), p.2) := rfl

lemma flmStep_fold_bounds (a b : List Char) (alo blo bhi : Nat) :
    ∀ (cnt start : Nat) (p : (Nat → Nat) × (Nat × Nat × Nat)),
      alo ≤ start →
      (∀ x, p.1 x ≠ 0 → blo + p.1 x ≤ x + 1) → (∀ x, alo + p.1 x ≤ start) →
      alo ≤ p.2.1 → blo ≤ p.2.2.1 → p.2.1 + p.2.2.2 ≤ start → p.2.2.1 + p.2.2.2 ≤ bhi →
      alo ≤ ((List.range' start cnt).foldl (flmStep a b blo bhi) p).2.1 ∧
      blo ≤ ((List.range' start cnt).foldl (flmStep a b blo bhi) p).2.2.1 ∧
      ((List.range' start cnt).foldl (flmStep a b blo bhi) p).2.1
        + ((List.range' start cnt).foldl (flmStep a b blo bhi) p).2.2.2 ≤ start + cnt ∧
      ((List.range' start cnt).foldl (flmStep a b blo bhi) p).2.2.1
        + ((List.range' start cnt).foldl (flmStep a b blo bhi) p).2.2.2 ≤ bhi := by
  intro cnt
  induction cnt with
  | zero =>
    intro start p _ _ _ h3 h4 h5 h6
    exact ⟨h3, h4, by simpa using h5, h6⟩
  | succ n ih =>
    intro start p hstart h1 h2 h3 h4 h5 h6
    rw [List.range'_succ, List.foldl_cons]
    have hjs : ∀ j ∈ (b2j b (a.getD start ' ')).filter
        (fun j => decide (blo ≤ j) && decide (j < bhi)), blo ≤ j ∧ j < bhi := by
      intro j hj
      have := List.of_mem_filter hj
      simp only [Bool.and_eq_true, decide_eq_true_eq] at this
      exact this
    have hz1 : ∀ x, ((fun _ => 0 : Nat → Nat), p.2).1 x ≠ 0 →
        blo + ((fun _ => 0 : Nat → Nat), p.2).1 x ≤ x + 1 := by
      intro x hx; exact absurd rfl hx
    have hz2 : ∀ x, alo + ((fun _ => 0 : Nat → Nat), p.2).1 x ≤ start + 1 := by
      intro x; dsimp only; omega
    have hstep := flmInner_fold_bounds p.1 start alo blo bhi h1 h2
      ((b2j b (a.getD start ' ')).filter (fun j => decide (blo ≤ j) && decide (j < bhi)))
      ((fun _ => 0), p.2) hjs hz1 hz2
      h3 h4 (by dsimp only; omega) h6
    rw [flmStep_eq]
    obtain ⟨s1, s2, s3, s4, s5, s6⟩ := hstep
    have := ih (start + 1)
      ((((b2j b (a.getD start ' ')).filter
          (fun j => decide (blo ≤ j) && decide (j < bhi))).foldl
          (flmInner p.1 start) ((fun _ => 0), p.2)))
      (by omega) s1 s2 s3 s4 s5 s6
    obtain ⟨t1, t2, t3, t4⟩ := this
    exact ⟨t1, t2, by omega, t4⟩

lemma extLeft_bounds (a b : List Char) (alo blo : Nat) :
    ∀ (fuel : Nat) (st : Nat × Nat × Nat), alo ≤ st.1 → blo ≤ st.2.1 →
      alo ≤ (extLeft a b alo blo fuel st).1 ∧
      blo ≤ (extLeft a b alo blo fuel st).2.1 ∧
      (extLeft a b alo blo fuel st).1 + (extLeft a b alo blo fuel st).2.2
        = st.1 + st.2.2 ∧
      (extLeft a b alo blo fuel st).2.1 + (extLeft a b alo blo fuel st).2.2
        = st.2.1 + st.2.2 := by
  intro fuel
  induction fuel with
  | zero => intro st h1 h2; exact ⟨h1, h2, rfl, rfl⟩
  | succ n ih =>
    intro st h1 h2
    obtain ⟨bi, bj, bs⟩ := st
    simp only [extLeft]
    split
    · rename_i hc
      simp only [Bool.and_eq_true, decide_eq_true_eq] at hc
      obtain ⟨⟨hbi, hbj⟩, -⟩ := hc
      obtain ⟨g1, g2, g3, g4⟩ := ih (bi - 1, bj - 1, bs + 1)
        (by dsimp only; omega) (by dsimp only; omega)
      refine ⟨g1, g2, ?_, ?_⟩ <;> dsimp only at g3 g4 ⊢ <;> omega
    · exact ⟨h1, h2, rfl, rfl⟩

lemma extRight_bounds (a b : List Char) (ahi bhi besti bestj : Nat) :
    ∀ (fuel bestsize : Nat), besti + bestsize ≤ ahi → bestj + bestsize ≤ bhi →
      besti + extRight a b ahi bhi besti bestj fuel bestsize ≤ ahi ∧
      bestj + extRight a b ahi bhi besti bestj fuel bestsize ≤ bhi := by
  intro fuel
  induction fuel with
  | zero => intro bs h1 h2; exact ⟨h1, h2⟩
  | succ n ih =>
    intro bs h1 h2
    simp only [extRight]
    split
    · rename_i hc
      simp only [Bool.and_eq_true, decide_eq_true_eq] at hc
      obtain ⟨⟨hlt1, hlt2⟩, -⟩ := hc
      exact ih (bs + 1) (by omega) (by omega)
    · exact ⟨h1, h2⟩

lemma findLongestMatch_bounds (a b : List Char) (alo ahi blo bhi : Nat)
    (hab : alo ≤ ahi) (hbb : blo ≤ bhi) :
    alo ≤ (findLongestMatch a b alo ahi blo bhi).1 ∧
    blo ≤ (findLongestMatch a b alo ahi blo bhi).2.1 ∧
    (findLongestMatch a b alo ahi blo bhi).1
      + (findLongestMatch a b alo ahi blo bhi).2.2 ≤ ahi ∧
    (findLongestMatch a b alo ahi blo bhi).2.1
      + (findLongestMatch a b alo ahi blo bhi).2.2 ≤ bhi := by
  obtain ⟨d1, d2, d3, d4⟩ := flmStep_fold_bounds a b alo blo bhi (ahi - alo) alo
    ((fun _ => 0), (alo, blo, 0)) (le_refl _) (fun x hx => absurd rfl hx)
    (fun x => by dsimp only; omega)
    (le_refl _) (le_refl _) (by dsimp only; omega) (by dsimp only; omega)
  simp only [findLongestMatch]
  set dp := (List.range' alo (ahi - alo)).foldl (flmStep a b blo bhi)
    ((fun _ => 0), (alo, blo, 0)) with hdp
  obtain ⟨e1, e2, e3, e4⟩ := extLeft_bounds a b alo blo dp.2.1 dp.2 d1 d2
  set st := extLeft a b alo blo dp.2.1 dp.2 with hst
  obtain ⟨r1, r2⟩ := extRight_bounds a b ahi bhi st.1 st.2.1
    (ahi - (st.1 + st.2.2)) st.2.2 (by omega) (by omega)
  exact ⟨e1, e2, r1, r2⟩

lemma matchesFuel_le (a b : List Char) :
    ∀ (fuel alo ahi blo bhi : Nat), alo ≤ ahi → blo ≤ bhi →
      matchesFuel a b fuel alo ahi blo bhi ≤ ahi - alo ∧
      matchesFuel a b fuel alo ahi blo bhi ≤ bhi - blo := by
  intro fuel
  induction fuel with
  | zero => intro alo ahi blo bhi _ _; exact ⟨Nat.zero_le _, Nat.zero_le _⟩
  | succ n ih =>
    intro alo ahi blo bhi hab hbb
    obtain ⟨hb1, hb2, hb3, hb4⟩ := findLongestMatch_bounds a b alo ahi blo bhi hab hbb
    simp only [matchesFuel]
    rcases hflm : findLongestMatch a b alo ahi blo bhi with ⟨i, j, k⟩
    rw [hflm] at hb1 hb2 hb3 hb4
    dsimp only at hb1 hb2 hb3 hb4 ⊢
    by_cases hk : k = 0
    · rw [if_pos hk]; exact ⟨Nat.zero_le _, Nat.zero_le _⟩
    · rw [if_neg hk]
      obtain ⟨l1, l2⟩ := ih alo i blo j (by omega) (by omega)
      obtain ⟨r1, r2⟩ := ih (i + k) ahi (j + k) bhi (by omega) (by omega)
      exact ⟨by omega, by omega⟩

lemma totalMatches_le (a b : List Char) :
    totalMatches a b ≤ a.length ∧ totalMatches a b ≤ b.length := by
  have := matchesFuel_le a b (a.length + b.length + 1) 0 a.length 0 b.length
    (Nat.zero_le _) (Nat.zero_le _)
  simpa [totalMatches] using this

lemma getD_mem (l : List Char) : ∀ n, n < l.length → l.getD n ' ' ∈ l := by
  induction l with
  | nil => intro n h; exact absurd h (by simp)
  | cons c t ih =>
    intro n h
    cases n with
    | zero => exact List.mem_cons_self _ _
    | succ m => exact List.mem_cons_of_mem _ (ih m (by simpa using h))

lemma flmStep_fold_disjoint (a b : List Char) (hdis : ∀ c ∈ a, c ∉ b) :
    ∀ (l : List Nat), (∀ i ∈ l, i < a.length) →
      l.foldl (flmStep a b 0 b.length) ((fun _ => 0), (0, 0, 0))
        = ((fun _ => 0), (0, 0, 0)) := by
  intro l
  induction l with
  | nil => intro _; rfl
  | cons i t ih =>
    intro hl
    rw [List.foldl_cons, flmStep_eq]
    have hb2j : b2j b (a.getD i ' ') = [] := by
      rw [b2j]
      split
      · rfl
      · rw [List.filter_eq_nil]
        intro j hj
        simp only [beq_iff_eq]
        intro hEq
        have hjlen : j < b.length := List.mem_range.mp hj
        have hmb : a.getD i ' ' ∈ b := hEq ▸ getD_mem b j hjlen
        exact hdis _ (getD_mem a i (hl i (List.mem_cons_self _ _))) hmb
    rw [hb2j]
    simp only [List.filter_nil, List.foldl_nil]
    exact ih (fun x hx => hl x (List.mem_cons_of_mem _ hx))

lemma extRight_zero_of_disjoint (a b : List Char) (hdis : ∀ c ∈ a, c ∉ b) :
    ∀ fuel, extRight a b a.length b.length 0 0 fuel 0 = 0 := by
  intro fuel
  cases fuel with
  | zero => rfl
  | succ n =>
    simp only [extRight]
    rw [if_neg]
    intro h
    simp only [Bool.and_eq_true, decide_eq_true_eq, beq_iff_eq] at h
    obtain ⟨⟨h1, h2⟩, h3⟩ := h
    exact hdis _ (getD_mem a 0 (by omega)) (h3 ▸ getD_mem b 0 (by omega))

lemma findLongestMatch_disjoint (a b : List Char) (hdis : ∀ c ∈ a, c ∉ b) :
    findLongestMatch a b 0 a.length 0 b.length = (0, 0, 0) := by
  simp only [findLongestMatch, Nat.sub_zero]
  rw [flmStep_fold_disjoint a b hdis _
    (fun i hi => by simpa using (List.mem_range'_1.mp hi).2)]
  dsimp only
  rw [show extLeft a b 0 0 0 (0, 0, 0) = (0, 0, 0) from rfl]
  dsimp only
  rw [Nat.add_zero, Nat.sub_zero]
  rw [extRight_zero_of_disjoint a b hdis]

lemma totalMatches_disjoint (a b : List Char) (hdis : ∀ c ∈ a, c ∉ b) :
    totalMatches a b = 0 := by
  rw [totalMatches]
  simp only [matchesFuel, findLongestMatch_disjoint a b hdis]
  simp

/-- C8 counterexample: the two empty strings are (vacuously) disjoint,
yet `_calculate_ratio` defines the ratio of two empty sequences to be
1.0, not 0.0. -/
theorem similarity_disjoint_counterexample :
    (∀ c ∈ (pyLower "").data, c ∉ (pyLower "").data) ∧
    similarity "" "" = 1 ∧ (1 : ℚ) ≠ 0 :=
  ⟨by simp [pyLower], rfl, by norm_num⟩

/-- C8 (amended): `similarity` always lies in `[0, 1]`; and for disjoint
strings (no characters in common after lower-casing) *that are not both
empty*, it equals 0 (the both-empty case is defined to be 1.0). -/
theorem similarity_range_and_disjoint :
    (∀ a b : String, 0 ≤ similarity a b ∧ similarity a b ≤ 1) ∧
    (∀ a b : String,
      (∀ c ∈ (pyLower a).data, c ∉ (pyLower b).data) →
      ¬(a = "" ∧ b = "") →
      similarity a b = 0) := by
  constructor
  · intro a b
    unfold similarity ratioOf
    by_cases h : (pyLower a).data.length + (pyLower b).data.length = 0
    · rw [if_pos h]; norm_num
    · rw [if_neg h]
      obtain ⟨hA, hB⟩ := totalMatches_le (pyLower a).data (pyLower b).data
      have hT : (0 : ℚ) < (((pyLower a).data.length + (pyLower b).data.length : Nat) : ℚ) := by
        have : 0 < (pyLower a).data.length + (pyLower b).data.length := Nat.pos_of_ne_zero h
        exact_mod_cast this
      constructor
      · positivity
      · rw [div_le_one hT]
        have h2 : 2 * totalMatches (pyLower a).data (pyLower b).data
            ≤ (pyLower a).data.length + (pyLower b).data.length := by omega
        exact_mod_cast h2
  · intro a b hdis hne
    have hm := totalMatches_disjoint _ _ hdis
    unfold similarity ratioOf
    rw [hm]
    have hlen : (pyLower a).data.length + (pyLower b).data.length ≠ 0 := by
      intro h0
      apply hne
      have hla : a.data.length = 0 ∧ b.data.length = 0 := by
        simp only [pyLower, List.length_map] at h0
        omega
      exact ⟨String.ext (List.length_eq_zero.mp hla.1),
             String.ext (List.length_eq_zero.mp hla.2)⟩
    rw [if_neg hlen]
    norm_num

/-- Witness for C8 at the disjoint pair ("ab", "cd"). -/
theorem similarity_range_and_disjoint_witness :
    (0 ≤ similarity "ab" "cd" ∧ similarity "ab" "cd" ≤ 1) ∧
    similarity "ab" "cd" = 0 :=
  ⟨similarity_range_and_disjoint.1 "ab" "cd",
   similarity_range_and_disjoint.2 "ab" "cd" (by decide) (by decide)⟩

/- ----------------------------------------------------------------
   Reflexivity of the ratio: on identical sequences the dynamic
   program's best block is always diagonal (besti = bestj), because any
   off-diagonal candidate block is a copy of a run of consecutive
   non-popular positions, whose own diagonal completes no later and
   pre-empts it under the strict `k > bestsize` test; the extension
   loops then grow the diagonal block to the whole sequence.
   `vrun s j` is the length of the maximal run of non-popular positions
   ending at `j`.
   ---------------------------------------------------------------- -/

def vrun (s : List Char) : Nat → Nat
  | 0 => if bPopular s (s.getD 0 ' ') then 0 else 1
  | j + 1 => if bPopular s (s.getD (j + 1) ' ') then 0 else vrun s j + 1

lemma vrun_popular (s : List Char) (j : Nat) (h : bPopular s (s.getD j ' ') = true) :
    vrun s j = 0 := by
  cases j <;> (simp only [vrun]; rw [if_pos h])

lemma vrun_vis (s : List Char) (j : Nat) (h : bPopular s (s.getD j ' ') = false) :
    vrun s j = (if j = 0 then 0 else vrun s (j - 1)) + 1 := by
  cases j <;> (simp only [vrun]; rw [if_neg (by simp only [h]; decide)]; simp)

lemma flmInner_map (old : Nat → Nat) (i : Nat)
    (p : (Nat → Nat) × (Nat × Nat × Nat)) (j x : Nat) :
    (flmInner old i p j).1 x
      = if x = j then (if j = 0 then 0 else old (j - 1)) + 1 else p.1 x := by
  rw [flmInner_eq]
  by_cases hc : p.2.2.2 < (if j = 0 then 0 else old (j - 1)) + 1
  · rw [if_pos hc]
  · rw [if_neg hc]

lemma flmInner_best (old : Nat → Nat) (i : Nat)
    (p : (Nat → Nat) × (Nat × Nat × Nat)) (j : Nat) :
    (flmInner old i p j).2
      = if p.2.2.2 < (if j = 0 then 0 else old (j - 1)) + 1 then
          (i + 1 - ((if j = 0 then 0 else old (j - 1)) + 1),
           j + 1 - ((if j = 0 then 0 else old (j - 1)) + 1),
           (if j = 0 then 0 else old (j - 1)) + 1)
        else p.2 := by
  rw [flmInner_eq]
  by_cases hc : p.2.2.2 < (if j = 0 then 0 else old (j - 1)) + 1
  · rw [if_pos hc, if_pos hc]
  · rw [if_neg hc, if_neg hc]

lemma flmInner_fold_map (old : Nat → Nat) (i : Nat) :
    ∀ (L : List Nat) (p : (Nat → Nat) × (Nat × Nat × Nat)) (x : Nat),
      (L.foldl (flmInner old i) p).1 x
        = if x ∈ L then (if x = 0 then 0 else old (x - 1)) + 1 else p.1 x := by
  intro L
  induction L with
  | nil => intro p x; simp
  | cons j t ih =>
    intro p x
    rw [List.foldl_cons, ih]
    by_cases hxt : x ∈ t
    · rw [if_pos hxt, if_pos (List.mem_cons_of_mem _ hxt)]
    · rw [if_neg hxt, flmInner_map]
      by_cases hxj : x = j
      · subst hxj
        rw [if_pos rfl, if_pos (List.mem_cons_self _ _)]
      · rw [if_neg hxj, if_neg (by simp [hxj, hxt])]

lemma flmInner_fold_nofire (old : Nat → Nat) (i : Nat) :
    ∀ (L : List Nat) (p : (Nat → Nat) × (Nat × Nat × Nat)),
      (∀ j ∈ L, (if j = 0 then 0 else old (j - 1)) + 1 ≤ p.2.2.2) →
      (L.foldl (flmInner old i) p).2 = p.2 := by
  intro L
  induction L with
  | nil => intro p _; rfl
  | cons j t ih =>
    intro p hle
    rw [List.foldl_cons]
    have hbest : (flmInner old i p j).2 = p.2 := by
      rw [flmInner_best, if_neg]
      exact not_lt.mpr (hle j (List.mem_cons_self _ _))
    rw [ih (flmInner old i p j)
      (fun x hx => by rw [hbest]; exact hle x (List.mem_cons_of_mem _ hx)), hbest]

lemma range_split_at (n i : Nat) (hi : i < n) :
    List.range n = List.range' 0 i ++ i :: List.range' (i + 1) (n - i - 1) := by
  rw [List.range_eq_range']
  rw [show n = n - i + i by omega]
  rw [← List.range'_append 0 i (n - i) 1]
  congr 1
  rw [show n - i + i - i - 1 = n - i - 1 by omega]
  rw [show n - i = (n - i - 1) + 1 by omega, List.range'_succ]
  simp

lemma k_le_vrun (s : List Char) (p1 : Nat → Nat) (hC : ∀ j, p1 j ≤ vrun s j)
    (x : Nat) (hvisx : bPopular s (s.getD x ' ') = false) :
    (if x = 0 then 0 else p1 (x - 1)) + 1 ≤ vrun s x := by
  rw [vrun_vis _ _ hvisx]
  by_cases hx : x = 0
  · rw [if_pos hx, if_pos hx]
  · rw [if_neg hx, if_neg hx]
    have := hC (x - 1)
    omega

lemma k_le_vrun_at (s : List Char) (i : Nat) (p1 : Nat → Nat)
    (hD : ∀ m, i = m + 1 → p1 m = vrun s m)
    (hE : ∀ j m, i = m + 1 → p1 j ≤ vrun s m)
    (hE0 : i = 0 → ∀ j, p1 j = 0)
    (hvisi : bPopular s (s.getD i ' ') = false) :
    (∀ x, (if x = 0 then 0 else p1 (x - 1)) + 1 ≤ vrun s i) ∧
    (if i = 0 then 0 else p1 (i - 1)) + 1 = vrun s i := by
  rw [vrun_vis _ _ hvisi]
  cases i with
  | zero =>
    refine ⟨fun x => ?_, by simp⟩
    have h0 := hE0 rfl
    by_cases hx : x = 0
    · rw [if_pos hx]; simp
    · rw [if_neg hx, h0 (x - 1)]; simp
  | succ m =>
    have hDm := hD m rfl
    refine ⟨fun x => ?_, ?_⟩
    · by_cases hx : x = 0
      · rw [if_pos hx]; simp
      · rw [if_neg hx]
        have := hE (x - 1) m rfl
        simp only [Nat.succ_ne_zero, if_false, Nat.succ_sub_one]
        omega
    · simp only [Nat.succ_ne_zero, if_false, Nat.succ_sub_one]
      omega

lemma js_self_decomp (s : List Char) (i : Nat) (hi : i < s.length)
    (hvis : bPopular s (s.getD i ' ') = false) :
    (b2j s (s.getD i ' ')).filter
        (fun j => decide (0 ≤ j) && decide (j < s.length))
      = (List.range' 0 i).filter (fun j => s.getD j ' ' == s.getD i ' ')
        ++ i :: (List.range' (i + 1) (s.length - i - 1)).filter
            (fun j => s.getD j ' ' == s.getD i ' ') := by
  rw [b2j, if_neg (by simp only [hvis]; decide)]
  rw [List.filter_eq_self.mpr]
  · rw [range_split_at s.length i hi, List.filter_append,
      List.filter_cons_of_pos (by simp)]
  · intro j hj
    have := List.mem_range.mp (List.mem_of_mem_filter hj)
    simp [this]

lemma flmStep_diag (s : List Char) (i : Nat) (hi : i < s.length)
    (p : (Nat → Nat) × (Nat × Nat × Nat))
    (hA : p.2.1 = p.2.2.1)
    (hB : ∀ t, t < i → vrun s t ≤ p.2.2.2)
    (hC : ∀ j, p.1 j ≤ vrun s j)
    (hD : ∀ m, i = m + 1 → p.1 m = vrun s m)
    (hE : ∀ j m, i = m + 1 → p.1 j ≤ vrun s m)
    (hE0 : i = 0 → ∀ j, p.1 j = 0) :
    (flmStep s s 0 s.length p i).2.1 = (flmStep s s 0 s.length p i).2.2.1 ∧
    (∀ t, t < i + 1 → vrun s t ≤ (flmStep s s 0 s.length p i).2.2.2) ∧
    (∀ j, (flmStep s s 0 s.length p i).1 j ≤ vrun s j) ∧
    (∀ m, i + 1 = m + 1 → (flmStep s s 0 s.length p i).1 m = vrun s m) ∧
    (∀ j m, i + 1 = m + 1 → (flmStep s s 0 s.length p i).1 j ≤ vrun s m) := by
  rw [flmStep_eq]
  by_cases hvis : bPopular s (s.getD i ' ') = true
  · rw [show b2j s (s.getD i ' ') = [] from by rw [b2j, if_pos hvis]]
    simp only [List.filter_nil, List.foldl_nil]
    have hv0 : vrun s i = 0 := vrun_popular s i hvis
    refine ⟨hA, ?_, ?_, ?_, ?_⟩
    · intro t ht
      rcases Nat.lt_succ_iff_lt_or_eq.mp ht with h | h
      · exact hB t h
      · subst h; rw [hv0]; exact Nat.zero_le _
    · intro j; exact Nat.zero_le _
    · intro m hm
      have hmi : m = i := by omega
      subst hmi; rw [hv0]
    · intro j m _; exact Nat.zero_le _
  · replace hvis : bPopular s (s.getD i ' ') = false := by
      cases h : bPopular s (s.getD i ' ') with
      | false => rfl
      | true => exact absurd h hvis
    rw [js_self_decomp s i hi hvis]
    obtain ⟨hk2all, hki⟩ := k_le_vrun_at s i p.1 hD hE hE0 hvis
    set A := (List.range' 0 i).filter (fun j => s.getD j ' ' == s.getD i ' ') with hAdef
    set B := (List.range' (i + 1) (s.length - i - 1)).filter
      (fun j => s.getD j ' ' == s.getD i ' ') with hBdef
    have hmemA : ∀ x ∈ A, x < i ∧ bPopular s (s.getD x ' ') = false := by
      intro x hx
      have hqx := List.of_mem_filter hx
      simp only [beq_iff_eq] at hqx
      refine ⟨?_, by rw [hqx]; exact hvis⟩
      have := List.mem_range'_1.mp (List.mem_of_mem_filter hx)
      omega
    have hmemB : ∀ x ∈ B, bPopular s (s.getD x ' ') = false := by
      intro x hx
      have hqx := List.of_mem_filter hx
      simp only [beq_iff_eq] at hqx
      rw [hqx]; exact hvis
    have hmap := flmInner_fold_map p.1 i (A ++ i :: B) ((fun _ => 0), p.2)
    rw [List.foldl_append, List.foldl_cons] at hmap ⊢
    set pA := A.foldl (flmInner p.1 i) ((fun _ => 0), p.2) with hpA
    have hpA2 : pA.2 = p.2 := by
      rw [hpA]
      apply flmInner_fold_nofire
      intro j hj
      obtain ⟨hji, hjvis⟩ := hmemA j hj
      calc (if j = 0 then 0 else p.1 (j - 1)) + 1
          ≤ vrun s j := k_le_vrun s p.1 hC j hjvis
        _ ≤ p.2.2.2 := hB j hji
    set pI := flmInner p.1 i pA i with hpI
    have hstep2 : pI.2.1 = pI.2.2.1 ∧
        p.2.2.2 ≤ pI.2.2.2 ∧ vrun s i ≤ pI.2.2.2 := by
      rw [hpI, flmInner_best, hpA2]
      by_cases hfire : p.2.2.2 < (if i = 0 then 0 else p.1 (i - 1)) + 1
      · rw [if_pos hfire]
        refine ⟨rfl, by dsimp only; omega, by dsimp only; omega⟩
      · rw [if_neg hfire]
        exact ⟨hA, le_refl _, by omega⟩
    have hfinal2 : (B.foldl (flmInner p.1 i) pI).2 = pI.2 := by
      apply flmInner_fold_nofire
      intro j hj
      calc (if j = 0 then 0 else p.1 (j - 1)) + 1
          ≤ vrun s i := hk2all j
        _ ≤ pI.2.2.2 := hstep2.2.2
    refine ⟨?_, ?_, ?_, ?_, ?_⟩
    · rw [hfinal2]; exact hstep2.1
    · intro t ht
      rw [hfinal2]
      rcases Nat.lt_succ_iff_lt_or_eq.mp ht with h | h
      · exact le_trans (hB t h) hstep2.2.1
      · subst h; exact hstep2.2.2
    · intro j
      rw [hmap j]
      by_cases hin : j ∈ A ++ i :: B
      · rw [if_pos hin]
        apply k_le_vrun s p.1 hC j
        rcases List.mem_append.mp hin with h | h
        · exact (hmemA j h).2
        · rcases List.mem_cons.mp h with rfl | h
          · exact hvis
          · exact hmemB j h
      · rw [if_neg hin]; exact Nat.zero_le _
    · intro m hm
      have hmi : m = i := by omega
      rw [hmi, hmap i, if_pos (List.mem_append.mpr (Or.inr (List.mem_cons_self _ _)))]
      exact hki
    · intro j m hm
      have hmi : m = i := by omega
      rw [hmi, hmap j]
      by_cases hin : j ∈ A ++ i :: B
      · rw [if_pos hin]; exact hk2all j
      · rw [if_neg hin]; exact Nat.zero_le _

lemma flmStep_fold_diag (s : List Char) :
    ∀ (cnt start : Nat) (p : (Nat → Nat) × (Nat × Nat × Nat)),
      start + cnt ≤ s.length →
      p.2.1 = p.2.2.1 →
      (∀ t, t < start → vrun s t ≤ p.2.2.2) →
      (∀ j, p.1 j ≤ vrun s j) →
      (∀ m, start = m + 1 → p.1 m = vrun s m) →
      (∀ j m, start = m + 1 → p.1 j ≤ vrun s m) →
      (start = 0 → ∀ j, p.1 j = 0) →
      ((List.range' start cnt).foldl (flmStep s s 0 s.length) p).2.1
        = ((List.range' start cnt).foldl (flmStep s s 0 s.length) p).2.2.1 := by
  intro cnt
  induction cnt with
  | zero => intro start p _ h1 _ _ _ _ _; exact h1
  | succ n ih =>
    intro start p hle h1 h2 h3 h4 h5 h6
    rw [List.range'_succ, List.foldl_cons]
    obtain ⟨g1, g2, g3, g4, g5⟩ := flmStep_diag s start (by omega) p h1 h2 h3 h4 h5 h6
    exact ih (start + 1) (flmStep s s 0 s.length p start) (by omega) g1 g2 g3 g4 g5
      (fun h => absurd h (Nat.succ_ne_zero _))

lemma extLeft_diag (s : List Char) : ∀ (d sz : Nat),
    extLeft s s 0 0 d (d, d, sz) = (0, 0, sz + d) := by
  intro d
  induction d with
  | zero => intro sz; rfl
  | succ m ih =>
    intro sz
    simp only [extLeft]
    rw [if_pos (by simp)]
    rw [Nat.succ_sub_one]
    rw [ih (sz + 1)]
    have harith : sz + 1 + m = sz + (m + 1) := by omega
    rw [harith]

lemma extRight_diag (s : List Char) (n : Nat) :
    ∀ (fuel sz : Nat), fuel = n - sz → sz ≤ n →
      extRight s s n n 0 0 fuel sz = n := by
  intro fuel
  induction fuel with
  | zero =>
    intro sz h1 h2
    have : sz = n := by omega
    rw [extRight, this]
  | succ m ih =>
    intro sz h1 h2
    have hlt : sz < n := by omega
    simp only [extRight]
    rw [if_pos (by simp [hlt])]
    exact ih (sz + 1) (by omega) (by omega)

lemma findLongestMatch_diag (s : List Char) :
    findLongestMatch s s 0 s.length 0 s.length = (0, 0, s.length) := by
  have hdiag := flmStep_fold_diag s s.length 0 ((fun _ => 0), (0, 0, 0))
    (by omega) rfl (fun t ht => absurd ht (Nat.not_lt_zero _)) (fun j => Nat.zero_le _)
    (fun m hm => absurd hm (by omega)) (fun j m hm => absurd hm (by omega))
    (fun _ _ => rfl)
  obtain ⟨-, -, d3, -⟩ := flmStep_fold_bounds s s 0 0 s.length s.length 0
    ((fun _ => 0), (0, 0, 0)) (le_refl _) (fun x hx => absurd rfl hx)
    (fun x => by dsimp only; omega)
    (le_refl _) (le_refl _) (by dsimp only; omega) (by dsimp only; omega)
  simp only [findLongestMatch, Nat.sub_zero]
  set dp := (List.range' 0 s.length).foldl (flmStep s s 0 s.length)
    ((fun _ => 0), (0, 0, 0)) with hdpdef
  rcases hdp2 : dp.2 with ⟨bi, bj, sz⟩
  rw [hdp2] at hdiag d3
  dsimp only at hdiag d3
  rw [← hdiag]
  dsimp only
  rw [extLeft_diag s bi sz]
  dsimp only
  rw [Nat.zero_add]
  rw [extRight_diag s s.length (s.length - (sz + bi)) (sz + bi) rfl (by omega)]

lemma findLongestMatch_empty_range (a b : List Char) (alo blo bhi : Nat) :
    findLongestMatch a b alo alo blo bhi = (alo, blo, 0) := by
  simp only [findLongestMatch, Nat.sub_self, List.range'_zero, List.foldl_nil]
  have hstop : extLeft a b alo blo alo (alo, blo, 0) = (alo, blo, 0) := by
    cases alo with
    | zero => rfl
    | succ m =>
      simp only [extLeft]
      rw [if_neg]
      simp
  rw [hstop]
  dsimp only
  rw [Nat.add_zero, Nat.sub_self]
  rfl

lemma matchesFuel_empty_range (a b : List Char) (fuel alo blo bhi : Nat) :
    matchesFuel a b fuel alo alo blo bhi = 0 := by
  cases fuel with
  | zero => rfl
  | succ n => simp [matchesFuel, findLongestMatch_empty_range]

lemma totalMatches_self (s : List Char) (h : s ≠ []) :
    totalMatches s s = s.length := by
  rw [totalMatches]
  have hlen : s.length + s.length + 1 = (s.length + s.length) + 1 := rfl
  rw [hlen]
  simp only [matchesFuel, findLongestMatch_diag]
  rw [if_neg (by simpa using h)]
  rw [Nat.zero_add, matchesFuel_empty_range, matchesFuel_empty_range]
  omega

/-- C7 counterexample: the ratio is not symmetric.  The asymmetry comes
from `find_longest_match`'s tie-breaking (earliest block in `a`, then in
`b`) interacting with the recursive split: for "ab" versus "bacb" the
matcher keeps both characters (blocks "a" then "b", ratio 4/6), while
for "bacb" versus "ab" the first chosen block "b" (at position 0 of the
longer string) leaves no room for further matches (ratio 2/6). -/
theorem similarity_not_symmetric_counterexample :
    similarity "ab" "bacb" = 2/3 ∧ similarity "bacb" "ab" = 1/3 ∧
    similarity "ab" "bacb" ≠ similarity "bacb" "ab" := by
  have h1 : similarity "ab" "bacb" = 2/3 := by
    rw [similarity_eval "ab" "bacb" 2 2 4 (by decide) (by decide) (by decide)]
    norm_num
  have h2 : similarity "bacb" "ab" = 1/3 := by
    rw [similarity_eval "bacb" "ab" 1 4 2 (by decide) (by decide) (by decide)]
    norm_num
  refine ⟨h1, h2, ?_⟩
  rw [h1, h2]
  norm_num

/-- C7 (amended): `similarity(s, s) = 1.0` for every non-empty `s` (the
best block of the dynamic program on identical sequences is always
diagonal, and the extension loops grow it to the whole string, even under
the autojunk heuristic), and `similarity("", "") = 1.0` by the
`_calculate_ratio` convention.  Symmetry, however, does NOT hold in
general — see the counterexample. -/
theorem similarity_self_eq_one :
    (∀ s : String, s ≠ "" → similarity s s = 1) ∧ similarity "" "" = 1 := by
  constructor
  · intro s hs
    unfold similarity ratioOf
    have hne : (pyLower s).data ≠ [] := by
      intro hd
      apply hs
      have hlen := congrArg List.length hd
      simp only [pyLower, List.length_map, List.length_nil] at hlen
      exact String.ext (List.length_eq_zero.mp hlen)
    rw [totalMatches_self _ hne]
    have hnpos : 0 < (pyLower s).data.length := List.length_pos.mpr hne
    rw [if_neg (by omega)]
    have hcast : ((((pyLower s).data.length + (pyLower s).data.length : Nat)) : ℚ)
        = 2 * ((pyLower s).data.length : ℚ) := by
      push_cast
      ring
    have hqpos : (0 : ℚ) < ((pyLower s).data.length : ℚ) := by exact_mod_cast hnpos
    rw [hcast, div_self (by positivity)]
  · rfl

/-- Witness for C7 at the concrete non-empty string "ab". -/
theorem similarity_self_eq_one_witness :
    similarity "ab" "ab" = 1 ∧ similarity "" "" = 1 :=
  ⟨similarity_self_eq_one.1 "ab" (by decide), similarity_self_eq_one.2⟩
